import Mathlib

/-!
Verification development for the StreamPulse event-processing core.

The definitions below are a shallow embedding of the Python sources:

* `src/backend/src/processing/anomaly_detector.py` — `AnomalyDetector`
* `src/backend/src/ingestion/stream_processor.py`  — `StreamProcessor`
* `src/backend/src/services/worker.py`             — `EventWorker`
* `src/backend/src/monitoring/metrics.py`          — `MetricsCollector`
* `src/backend/src/services/websocket_manager.py`  — `WebSocketManager`

Numeric state is modelled over `ℚ`; Redis-stream field maps are modelled as
association lists from `String` to a small inductive type `PyVal` of the
Python values that actually reach the field maps in these sources.
-/

namespace StreamPulse

/-- A Python value as it occurs in an event field map: a string, an int,
or a float (modelled as a rational).  These are exactly the scalar types
the redis client encodes into stream fields — a value of any other type
(such as `None`) raises `DataError` before reaching the log — so a field
map over `PyVal` is always appendable and `Log.xadd` can be total. -/
inductive PyVal where
  | pstr (s : String)
  | pint (n : Int)
  | pfloat (q : ℚ)
deriving Repr, DecidableEq

/-- A Python `dict` at the log-field boundary, as an association list. -/
abbrev Fields := List (String × PyVal)

/-- Dict update `d[k] = v`: any existing binding of `k` is replaced. -/
def setField (e : Fields) (k : String) (v : PyVal) : Fields :=
  e.filter (fun p => p.1 ≠ k) ++ [(k, v)]

/-- `k in d` for a field map. -/
def hasField (e : Fields) (k : String) : Bool :=
  (e.lookup k).isSome

/-- Python's digit parsing on the fragment the development needs: a
nonempty all-digit string denotes the corresponding natural number; any
other string is rejected.  (Kept structural on the character list so that
concrete instances evaluate.) -/
def strToNat? (s : String) : Option Nat :=
  if s.data.isEmpty || !(s.data.all Char.isDigit) then none
  else some (s.data.foldl (fun acc c => acc * 10 + (c.toNat - 48)) 0)

/-- `float(v)` on the fragment of Python values used by this code base:
floats and ints convert to themselves; decimal-digit strings convert to
the number they denote (the only numeric string shape the development
needs); a non-numeric string raises `ValueError`, modelled as `none`. -/
def pyFloat : PyVal → Option ℚ
  | .pfloat q => some q
  | .pint n => some (n : ℚ)
  | .pstr s => (strToNat? s).map (fun n => (n : ℚ))

/-! ## AnomalyDetector (`anomaly_detector.py`) -/

/-- State of `AnomalyDetector`: the constructor parameters and the bounded
FIFO window (`collections.deque(maxlen=window_size)`). -/
structure AnomalyDetector where
  window_size : Nat
  threshold : ℚ
  window : List ℚ
deriving Repr, DecidableEq

/-- `deque.append` on a deque with `maxlen = ws`: the value goes to the
right end and the leftmost elements are dropped so that at most `ws`
remain. -/
def pushWindow (ws : Nat) (w : List ℚ) (v : ℚ) : List ℚ :=
  (w ++ [v]).drop (w.length + 1 - ws)

/-- `np.mean` over the window. -/
def listMean (w : List ℚ) : ℚ := w.sum / w.length

/-- `np.std` squared: the population variance over the window.  The source
works with the standard deviation `σ = √(listVar w)`; the embedding keeps
the (rational) variance and squares of scores so that everything stays
computable, and theorem `C1_detect_follows_spec` relates the computed
booleans and squares back to the real-valued `σ` and z-score of the
source. -/
def listVar (w : List ℚ) : ℚ :=
  ((w.map (fun x => (x - listMean w) ^ 2)).sum) / w.length

/-- `AnomalyDetector.detect(value)`.  Returns the updated detector together
with `(is_anomaly, z²)` where `z²` is the square of the z-score the source
returns.  The source decides `is_anomaly` as `z > threshold` with
`z = |value − mean| / σ ≥ 0`; over the rationals this is decided
equivalently as `threshold < 0 ∨ threshold² · var < (value − mean)²`,
which theorem `C1_detect_follows_spec` proves equal to the source's
real-valued comparison. -/
def AnomalyDetector.detect (d : AnomalyDetector) (value : ℚ) :
    AnomalyDetector × Bool × ℚ :=
  let w := pushWindow d.window_size d.window value
  let d' : AnomalyDetector := { d with window := w }
  if w.length < 30 then (d', false, 0)
  else
    let m := listMean w
    let var := listVar w
    if var = 0 then (d', false, 0)
    else
      (d', (decide (d.threshold < 0) || decide (d.threshold ^ 2 * var < (value - m) ^ 2),
        (value - m) ^ 2 / var))

/-- Feed a list of values through `detect` one at a time, collecting the
returned `(is_anomaly, z²)` pairs. -/
def runDetect (d : AnomalyDetector) : List ℚ → AnomalyDetector × List (Bool × ℚ)
  | [] => (d, [])
  | v :: vs =>
    let r := d.detect v
    let rest := runDetect r.1 vs
    (rest.1, r.2 :: rest.2)

/-! ## Redis streams (`XADD` with `maxlen`, used by all components) -/

/-- A Redis stream: its entries `(entry_id, fields)` in append order, and
the next id to assign.  Entry ids are modelled as naturals, monotone in
append order exactly as Redis stream ids are. -/
structure Log where
  entries : List (Nat × Fields)
  nextId : Nat
deriving Repr, DecidableEq

/-- `XADD stream fields [MAXLEN cap]`: appends one entry; with a `maxlen`
the oldest entries are evicted so that at most `cap` remain. -/
def Log.xadd (l : Log) (fields : Fields) (maxlen : Option Nat) : Log :=
  let appended := l.entries ++ [(l.nextId, fields)]
  { entries :=
      match maxlen with
      | some cap => appended.drop (appended.length - cap)
      | none => appended,
    nextId := l.nextId + 1 }

/-! ## StreamProcessor (`stream_processor.py`) -/

/-- `StreamProcessor._validate_event`: the source checks only that the
required fields are present. -/
def validateEvent (e : Fields) : Bool :=
  ["timestamp", "type", "value"].all (fun field => hasField e field)

/-- `StreamProcessor._enrich_event`: add `ingested_at` (the wall clock,
passed in as `now`) and `processed = "false"`. -/
def enrichEvent (now : String) (e : Fields) : Fields :=
  setField (setField e "ingested_at" (.pstr now)) "processed" (.pstr "false")

/-- `StreamProcessor.ingest_batch`: validate each event, enrich the valid
ones and append them to the `events` stream with `maxlen = 1000000`;
invalid events are skipped.  Returns the new `events` log and the count of
successful appends (the source counts the truthy results of the executed
pipeline, one per appended event). -/
def ingestBatch (now : String) (events : Log) (batch : List Fields) : Log × Nat :=
  batch.foldl
    (fun acc e =>
      if validateEvent e then
        (acc.1.xadd (enrichEvent now e) (some 1000000), acc.2 + 1)
      else acc)
    (events, 0)

/-- Validity of an ingress event as the specification words it (spec §4.4,
used for the refinement comparison with `validateEvent`): required fields
present, `value` coercible to `float`, and `timestamp` a string. -/
def specValidEvent (e : Fields) : Bool :=
  validateEvent e &&
    (match e.lookup "value" with
     | some v => pyFloat v |>.isSome
     | none => false) &&
    (match e.lookup "timestamp" with
     | some (.pstr _) => true
     | _ => false)

/-! ## MetricsCollector (`metrics.py`) -/

/-- The in-process state of `MetricsCollector`: the cumulative counters and
the latency sample lists.  The source stores the samples in plain Python
lists (`self.processing_times = []`, appended to and never trimmed). -/
structure MetricsState where
  events_processed : Nat
  anomalies_detected : Nat
  processing_times : List ℚ
  ingestion_times : List ℚ
deriving Repr, DecidableEq

/-- A fresh `MetricsCollector`. -/
def initialMetrics : MetricsState := ⟨0, 0, [], []⟩

/-- `MetricsCollector.record_processing_end(start_time, anomaly_detected)`:
unconditionally appends the duration to `processing_times` and increments
`events_processed`; increments `anomalies_detected` only when
`anomaly_detected` is true. -/
def recordProcessingEnd (m : MetricsState) (duration : ℚ)
    (anomaly_detected : Bool) : MetricsState :=
  { m with
    processing_times := m.processing_times ++ [duration],
    events_processed := m.events_processed + 1,
    anomalies_detected := m.anomalies_detected + (if anomaly_detected then 1 else 0) }

/-- Iterate `record_processing_end` (with default `anomaly_detected=False`)
`n` times, as a worker does once per processing attempt. -/
def recordN (m : MetricsState) (dur : ℚ) : Nat → MetricsState
  | 0 => m
  | n + 1 => recordProcessingEnd (recordN m dur n) dur false

/-- `events_per_second` as computed by `get_metrics_summary`:
`events_processed / max(1, uptime)`. -/
def metricsEventsPerSecond (m : MetricsState) (uptime : ℚ) : ℚ :=
  (m.events_processed : ℚ) / max 1 uptime

/-! ## EventWorker (`worker.py`) -/

/-- The retry configuration (`DLQ_MAX_RETRIES`, `DLQ_BACKOFF_BASE` from
`config.py`). -/
structure RetryConfig where
  maxRetries : Nat
  backoffBase : ℚ
deriving Repr, DecidableEq

/-- The defaults: `DLQ_MAX_RETRIES = 3`, `DLQ_BACKOFF_BASE = 2.0`. -/
def defaultRetryConfig : RetryConfig := ⟨3, 2⟩

/-- `int(event["data"].get("retry_count", 0))`.  The pipeline only ever
stores integer retry counts, so the embedding reads back an `Int` and
defaults to `0` when the field is absent. -/
def getRetryCount (data : Fields) : Int :=
  match data.lookup "retry_count" with
  | some (.pint n) => n
  | _ => 0

/-- The decision `_handle_event_failure` takes for one failure: either a
delayed re-append of the modified fields to `events`, or DLQ promotion. -/
inductive FailureDecision where
  | retryLater (data : Fields) (delay : ℚ)
  | sendToDlq (data : Fields)
deriving Repr, DecidableEq

/-- The field map carried by a failure decision. -/
def decisionData : FailureDecision → Fields
  | .retryLater d _ => d
  | .sendToDlq d => d

/-- Whether a failure decision is the DLQ promotion. -/
def isDlqDecision : FailureDecision → Bool
  | .retryLater _ _ => false
  | .sendToDlq _ => true

/-- The backoff delay carried by a retry decision. -/
def decisionDelay : FailureDecision → Option ℚ
  | .retryLater _ δ => some δ
  | .sendToDlq _ => none

/-- `EventWorker._handle_event_failure`: increment the retry count, record
`last_error` and `failed_at`; when the new count is at most
`DLQ_MAX_RETRIES`, schedule a re-append after `DLQ_BACKOFF_BASE **
retry_count` seconds, else promote to the DLQ. -/
def handleEventFailure (cfg : RetryConfig) (data : Fields) (err now : String) :
    FailureDecision :=
  let rc : Int := getRetryCount data + 1
  let data' :=
    setField (setField (setField data "retry_count" (.pint rc))
      "last_error" (.pstr err)) "failed_at" (.pstr now)
  if rc ≤ (cfg.maxRetries : Int) then
    .retryLater data' (cfg.backoffBase ^ rc)
  else
    .sendToDlq data'

/-- The DLQ entry `_send_to_dlq` builds: the failed event's fields plus
`original_event_id`, `dlq_reason`, `dlq_timestamp` and
`final_retry_count = data.get("retry_count", 0)`. -/
def buildDlqEvent (eventId : Nat) (data : Fields) (err now : String) : Fields :=
  setField (setField (setField (setField data
    "original_event_id" (.pint eventId))
    "dlq_reason" (.pstr err))
    "dlq_timestamp" (.pstr now))
    "final_retry_count" ((data.lookup "retry_count").getD (.pint 0))

/-- `EventWorker._send_to_dlq`: append the DLQ entry to `dlq:stream` with
`maxlen = 100000`. -/
def sendToDlqLog (dlq : Log) (eventId : Nat) (data : Fields) (err now : String) : Log :=
  dlq.xadd (buildDlqEvent eventId data err now) (some 100000)

/-- `EventWorker._retry_event_later` (after the sleep): re-append the
modified fields to `events:stream` with `maxlen = 1000000`. -/
def retryLaterAppend (events : Log) (data : Fields) : Log :=
  events.xadd data (some 1000000)

/-- The failure decision after the `(n+1)`-th consecutive processing
failure of one logical event, each failure feeding the re-appended fields
of the previous one back through `_handle_event_failure` (DLQ promotion is
absorbing). -/
def nthFailureDecision (cfg : RetryConfig) (err now : String) (data : Fields) :
    Nat → FailureDecision
  | 0 => handleEventFailure cfg data err now
  | n + 1 =>
    match nthFailureDecision cfg err now data n with
    | .retryLater d _ => handleEventFailure cfg d err now
    | .sendToDlq d => .sendToDlq d

/-- Python's `s.startswith(pre)`. -/
def strStartsWith (s pre : String) : Bool := pre.data.isPrefixOf s.data

/-- The key filter of `retry_dlq_event`: drop every field whose name starts
with one of `retry_count`, `last_error`, `failed_at`, `dlq_`. -/
def cleanDlqFields (data : Fields) : Fields :=
  data.filter (fun p =>
    !(strStartsWith p.1 "retry_count" || strStartsWith p.1 "last_error" ||
      strStartsWith p.1 "failed_at" || strStartsWith p.1 "dlq_"))

/-- `EventWorker.retry_dlq_event(event_id)`: look the entry up in the DLQ
(`XRANGE` with `min = max = event_id`); when present, append its cleaned
fields to `events:stream` — the source passes NO `maxlen` here — delete the
DLQ entry and return `true`; otherwise return `false`.  Result:
`((events, dlq), found)`. -/
def retryDlqEvent (events dlq : Log) (eventId : Nat) : (Log × Log) × Bool :=
  match dlq.entries.find? (fun p => p.1 == eventId) with
  | none => ((events, dlq), false)
  | some p =>
    let events' := events.xadd (cleanDlqFields p.2) none
    let dlq' : Log := { dlq with entries := dlq.entries.filter (fun q => q.1 != eventId) }
    ((events', dlq'), true)

/-- Which of the fallible sub-steps of `_process_single_event` raise in a
given attempt.  Validation failure and `float()` failure are determined by
the event's fields; exceptions inside `AnomalyDetector.detect` and inside
the `processed`-stream `XADD` are injected as abstract faults. -/
structure WorkerFaults where
  detectRaises : Bool
  storeRaises : Bool
deriving Repr, DecidableEq

/-- The per-`EventWorker` state touched by processing: its anomaly
detector, its metrics collector, the `processed` and `dlq` streams and the
three counters. -/
structure WorkerState where
  detector : AnomalyDetector
  metrics : MetricsState
  processedLog : Log
  dlqLog : Log
  processed_count : Nat
  failed_count : Nat
  dlq_count : Nat
deriving Repr, DecidableEq

/-- Outcome of one `_process_single_event` call: normal return, or a raised
`StreamProcessingException` (caught by `_process_events_batch`). -/
inductive ProcOutcome where
  | ok
  | raised (err : String)
deriving Repr, DecidableEq

/-- The enriched `ProcessedEvent` built in `_process_single_event`.  The
source stores `str(is_anomaly)` (Python renders `"True"`/`"False"`) and
`str(z_score)`; the embedding keeps the square of the score as the numeric
payload of `z_score`, matching `AnomalyDetector.detect`. -/
def buildProcessedEvent (data : Fields) (now workerId : String)
    (is_anomaly : Bool) (zsq : ℚ) (procTime : String) : Fields :=
  setField (setField (setField (setField (setField data
    "processed_at" (.pstr now))
    "worker_id" (.pstr workerId))
    "anomaly_detected" (.pstr (if is_anomaly then "True" else "False")))
    "z_score" (.pfloat zsq))
    "processing_time" (.pstr procTime)

/-- `EventWorker._process_single_event`: record the processing start, then
validate the fields, parse `value` as a float, run the anomaly detector,
build the `ProcessedEvent` and store it via `_store_processed_event` —
whose own `try/except` CATCHES a failing `XADD` and only logs it — then
record the processing end (passing `is_anomaly`) and bump
`processed_count`.  Any exception before the store is recorded
(`record_processing_end(start_time)`) and re-raised. -/
def processSingleEvent (st : WorkerState) (data : Fields) (flt : WorkerFaults)
    (duration : ℚ) (now workerId procTime : String) : WorkerState × ProcOutcome :=
  if validateEvent data = false then
    ({ st with metrics := recordProcessingEnd st.metrics duration false },
     .raised "Invalid event format")
  else
    match pyFloat ((data.lookup "value").getD (.pint 0)) with
    | none =>
      ({ st with metrics := recordProcessingEnd st.metrics duration false },
       .raised "could not convert value to float")
    | some value =>
      if flt.detectRaises then
        ({ st with metrics := recordProcessingEnd st.metrics duration false },
         .raised "anomaly detection failed")
      else
        let r := st.detector.detect value
        let plog :=
          if flt.storeRaises then st.processedLog
          else st.processedLog.xadd
            (buildProcessedEvent data now workerId r.2.1 r.2.2 procTime) (some 1000000)
        ({ st with
            detector := r.1,
            metrics := recordProcessingEnd st.metrics duration r.2.1,
            processedLog := plog,
            processed_count := st.processed_count + 1 },
         .ok)

/-- The `is_anomaly` flag that a `_process_single_event` attempt passes to
`record_processing_end`: the detector's verdict on the parsed value when
the attempt reaches the success path, and `False` (the Python default
argument) on every exception path. -/
def anomFlag (st : WorkerState) (data : Fields) (flt : WorkerFaults) : Bool :=
  if validateEvent data = false then false
  else
    match pyFloat ((data.lookup "value").getD (.pint 0)) with
    | none => false
    | some value => if flt.detectRaises = true then false else (st.detector.detect value).2.1

/-- What became of one event after an attempt went through
`_process_events_batch`: processed normally, re-append scheduled with a
delay, or promoted to the DLQ. -/
inductive EventAction where
  | processedOk
  | retryScheduled (data : Fields) (delay : ℚ)
  | dlqPromoted (data : Fields)
deriving Repr, DecidableEq

/-- Whether an action went down the failure-handling path. -/
def isFailureAction : EventAction → Bool
  | .processedOk => false
  | .retryScheduled _ _ => true
  | .dlqPromoted _ => true

/-- One iteration of `_process_events_batch` for one event: call
`_process_single_event` and, when it raises, call `_handle_event_failure`
(which bumps `failed_count` and either schedules the retry or appends to
the DLQ). -/
def processWithFailureHandling (cfg : RetryConfig) (st : WorkerState)
    (eventId : Nat) (data : Fields) (flt : WorkerFaults)
    (duration : ℚ) (now workerId procTime : String) : WorkerState × EventAction :=
  let r := processSingleEvent st data flt duration now workerId procTime
  match r.2 with
  | .ok => (r.1, .processedOk)
  | .raised err =>
    let st' := { r.1 with failed_count := r.1.failed_count + 1 }
    match handleEventFailure cfg data err now with
    | .retryLater d δ => (st', .retryScheduled d δ)
    | .sendToDlq d =>
      ({ st' with
          dlqLog := sendToDlqLog st'.dlqLog eventId d err now,
          dlq_count := st'.dlq_count + 1 },
       .dlqPromoted d)

/-! ## WebSocketManager (`websocket_manager.py`) -/

/-- Per-session metadata kept in `connection_metadata`. -/
structure SessionMeta where
  client_id : String
  connected_at : ℚ
  message_count : Nat
deriving Repr, DecidableEq

/-- The manager's mutable state: the subscriber set `active_connections`
(a Python `set` of channels, modelled as a duplicate-free list of channel
ids) and the per-session metadata dict. -/
structure WSState where
  active_connections : List Nat
  connection_metadata : List (Nat × SessionMeta)
deriving Repr, DecidableEq

/-- `WebSocketManager.disconnect`: when the channel is in the subscriber
set, remove it from the set and `pop` its metadata; otherwise do nothing.
Set removal and dict `pop` are the key filters on the duplicate-free
representations. -/
def WSState.disconnect (st : WSState) (c : Nat) : WSState :=
  if c ∈ st.active_connections then
    { active_connections := st.active_connections.filter (fun x => x != c),
      connection_metadata := st.connection_metadata.filter (fun p => p.1 != c) }
  else st

/-- The `message_count += 1` update of `send_personal_message` (applied
only when the channel has metadata, as in the source). -/
def bumpMessageCount (meta : List (Nat × SessionMeta)) (c : Nat) :
    List (Nat × SessionMeta) :=
  meta.map (fun p =>
    if p.1 = c then (p.1, { p.2 with message_count := p.2.message_count + 1 }) else p)

/-- `WebSocketManager.send_personal_message`: transmit; on send failure
(`sendFails c`) call `disconnect`, otherwise bump the session's
`message_count`. -/
def sendPersonalMessage (st : WSState) (c : Nat) (sendFails : Nat → Bool) : WSState :=
  if sendFails c then st.disconnect c
  else { st with connection_metadata := bumpMessageCount st.connection_metadata c }

/-- `WebSocketManager.broadcast`: if there are no subscribers return at
once; otherwise send to every subscriber, collecting the channels whose
send failed, and only after the iteration disconnect each collected
channel.  Returns the new state and the list of channels whose send
succeeded (those that received the message). -/
def broadcast (st : WSState) (sendFails : Nat → Bool) : WSState × List Nat :=
  if st.active_connections.isEmpty then (st, [])
  else
    let disconnected := st.active_connections.filter (fun c => sendFails c)
    let delivered := st.active_connections.filter (fun c => !(sendFails c))
    (disconnected.foldl (fun s c => s.disconnect c) st, delivered)

/-! ## Concrete instances used by witnesses and counterexamples -/

/-- A well-formed ingress event whose `value` is a float. -/
def freshEventFields : Fields :=
  [("timestamp", .pstr "2024-01-30T10:45:00Z"), ("type", .pstr "t"), ("value", .pfloat 1)]

/-- An event with all required fields present whose `value` is a
non-numeric string, not coercible to `float`. -/
def badValueEvent : Fields :=
  [("timestamp", .pstr "2024-01-30T10:45:00Z"), ("type", .pstr "t"), ("value", .pstr "abc")]

/-- An `events` stream already holding exactly its cap of 1,000,000
entries. -/
def fullEventsLog : Log := ⟨List.replicate 1000000 (0, freshEventFields), 1000000⟩

/-- A DLQ stream holding one entry with id 5. -/
def oneDlqLog : Log := ⟨[(5, freshEventFields)], 6⟩

/-- A fresh worker (its detector has the source defaults
`window_size=100`, `threshold=3.0`). -/
def freshWorker : WorkerState :=
  ⟨⟨100, 3, []⟩, initialMetrics, ⟨[], 0⟩, ⟨[], 0⟩, 0, 0, 0⟩

/-- The fault injection where only the `processed`-stream `XADD` raises. -/
def storeOnlyFault : WorkerFaults := ⟨false, true⟩

/-- A manager state with three subscribers. -/
def threeClients : WSState :=
  ⟨[1, 2, 3], [(1, ⟨"a", 0, 0⟩), (2, ⟨"b", 0, 0⟩), (3, ⟨"c", 0, 0⟩)]⟩

/-! ## Helper lemmas -/

theorem lookup_eq_none_of_keys {α β : Type} [BEq α] [LawfulBEq α]
    (l : List (α × β)) (k : α) (h : ∀ p ∈ l, p.1 ≠ k) : l.lookup k = none := by
  induction l with
  | nil => rfl
  | cons p l ih =>
    have hp : (k == p.1) = false := by
      simp only [beq_eq_false_iff_ne]
      exact fun hk => h p (by simp) hk.symm
    simp only [List.lookup, hp]
    exact ih (fun q hq => h q (List.mem_cons_of_mem _ hq))

theorem lookup_setField_self (e : Fields) (k : String) (v : PyVal) :
    (setField e k v).lookup k = some v := by
  induction e with
  | nil => simp [setField, List.lookup]
  | cons p e ih =>
    by_cases hp : p.1 = k
    · simpa [setField, hp] using ih
    · have : (k == p.1) = false := by
        simp only [beq_eq_false_iff_ne]
        exact fun hk => hp hk.symm
      simpa [setField, hp, List.lookup, this] using ih

theorem lookup_setField_ne (e : Fields) (k k' : String) (v : PyVal)
    (h : k' ≠ k) : (setField e k v).lookup k' = e.lookup k' := by
  induction e with
  | nil =>
    have : (k' == k) = false := by simpa using h
    simp [setField, List.lookup, this]
  | cons p e ih =>
    obtain ⟨a, b⟩ := p
    by_cases hp : a = k
    · have hne : (k' == a) = false := by
        simp only [beq_eq_false_iff_ne]
        exact fun hk => h (hk.trans hp)
      have hs : setField ((a, b) :: e) k v = setField e k v := by
        simp [setField, hp]
      rw [hs, ih]
      simp [List.lookup, hne]
    · have hs : setField ((a, b) :: e) k v = (a, b) :: setField e k v := by
        simp [setField, hp]
      by_cases hq : k' = a
      · simp [hs, List.lookup, hq]
      · have hne : (k' == a) = false := by simpa using hq
        simp [hs, List.lookup, hne, ih]

theorem mem_setField (e : Fields) (k : String) (v : PyVal) (p : String × PyVal)
    (h : p ∈ setField e k v) : p ∈ e ∨ p = (k, v) := by
  simp only [setField, List.mem_append, List.mem_filter, List.mem_singleton] at h
  exact h.imp (fun h => h.1) id

theorem xadd_capped_length_le (l : Log) (f : Fields) (cap : Nat) :
    ((l.xadd f (some cap)).entries.length) ≤ cap := by
  simp only [Log.xadd, List.length_drop, List.length_append, List.length_singleton]
  omega

theorem xadd_none_length (l : Log) (f : Fields) :
    (l.xadd f none).entries.length = l.entries.length + 1 := by
  simp [Log.xadd]

theorem xadd_mem (l : Log) (f : Fields) (cap : Option Nat) (p : Nat × Fields)
    (h : p ∈ (l.xadd f cap).entries) : p ∈ l.entries ∨ p = (l.nextId, f) := by
  have h' : p ∈ l.entries ++ [(l.nextId, f)] := by
    cases cap with
    | none => simpa [Log.xadd] using h
    | some cap =>
      simp only [Log.xadd] at h
      exact List.mem_of_mem_drop h
  simpa using h'

theorem ingestBatch_fold_aux (now : String) (batch : List Fields) :
    ∀ (log : Log) (n : Nat),
      (batch.foldl
        (fun acc e =>
          if validateEvent e then
            (acc.1.xadd (enrichEvent now e) (some 1000000), acc.2 + 1)
          else acc)
        (log, n)).2 = n + (batch.filter (fun e => validateEvent e)).length ∧
      ∀ p ∈ (batch.foldl
        (fun acc e =>
          if validateEvent e then
            (acc.1.xadd (enrichEvent now e) (some 1000000), acc.2 + 1)
          else acc)
        (log, n)).1.entries,
        p ∈ log.entries ∨ ∃ e ∈ batch, validateEvent e = true ∧ p.2 = enrichEvent now e := by
  induction batch with
  | nil => exact fun log n => ⟨rfl, fun p hp => Or.inl hp⟩
  | cons e batch ih =>
    intro log n
    by_cases hv : validateEvent e = true
    · simp only [List.foldl_cons, hv, if_true]
      constructor
      · rw [(ih (log.xadd (enrichEvent now e) (some 1000000)) (n + 1)).1]
        simp [List.filter_cons, hv]
        omega
      · intro p hp
        rcases (ih (log.xadd (enrichEvent now e) (some 1000000)) (n + 1)).2 p hp with
          h | ⟨e', he', hv', hp'⟩
        · rcases xadd_mem _ _ _ _ h with h' | h'
          · exact Or.inl h'
          · exact Or.inr ⟨e, List.mem_cons_self _ _, hv, by rw [h']⟩
        · exact Or.inr ⟨e', List.mem_cons_of_mem _ he', hv', hp'⟩
    · simp only [List.foldl_cons]
      rw [if_neg hv]
      constructor
      · rw [(ih log n).1]
        simp [List.filter_cons, hv]
      · intro p hp
        rcases (ih log n).2 p hp with h | ⟨e', he', hv', hp'⟩
        · exact Or.inl h
        · exact Or.inr ⟨e', List.mem_cons_of_mem _ he', hv', hp'⟩

/-- C2 — counterexample.  `badValueEvent` has all three required fields but
its `value` is the non-numeric string `abc`, which `float` cannot coerce,
so the claim counts it invalid (K = 1) and demands `ingested = |B| − K = 0`
with the event kept out of the events log.
`StreamProcessor._validate_event` checks field presence only, so the code
ingests it: `ingested = 1` and the enriched event is appended to the
events log. -/
theorem C2_ingest_validation_counterexample :
    validateEvent badValueEvent = true ∧
    specValidEvent badValueEvent = false ∧
    ([badValueEvent].filter (fun e => !(specValidEvent e))).length = 1 ∧
    (ingestBatch "T" ⟨[], 0⟩ [badValueEvent]).2 = 1 ∧
    (ingestBatch "T" ⟨[], 0⟩ [badValueEvent]).2 ≠ [badValueEvent].length - 1 ∧
    (ingestBatch "T" ⟨[], 0⟩ [badValueEvent]).1.entries =
      [(0, enrichEvent "T" badValueEvent)] := by
  decide

/-- C2 (amended).  For every batch, `ingest_batch` skips exactly the events
missing a required field (`timestamp`, `type` or `value`) without failing
the batch, appends only the enriched presence-valid events to the events
log, and returns `ingested = |B| − K` where `K` counts the events missing a
required field; float-coercibility of `value` and the type of `timestamp`
are not checked by `ingest_batch`, so an event whose fields are all present
but whose `value` is a non-numeric string (or whose `timestamp` is a
numeric scalar rather than a string) is ingested. -/
theorem C2_ingest_skips_presence_invalid (now : String) (log : Log)
    (batch : List Fields) :
    (ingestBatch now log batch).2 = (batch.filter (fun e => validateEvent e)).length ∧
    ∀ p ∈ (ingestBatch now log batch).1.entries,
      p ∈ log.entries ∨ ∃ e ∈ batch, validateEvent e = true ∧ p.2 = enrichEvent now e := by
  have h := ingestBatch_fold_aux now batch log 0
  simpa [ingestBatch] using h

/-- Witness for C2 (amended) at a concrete batch of one presence-valid and
one presence-invalid event. -/
theorem C2_ingest_skips_presence_invalid_witness :
    (ingestBatch "T" ⟨[], 0⟩ [freshEventFields, [("type", PyVal.pstr "t")]]).2 =
      ([freshEventFields, [("type", PyVal.pstr "t")]].filter
        (fun e => validateEvent e)).length ∧
    ((0, enrichEvent "T" freshEventFields) ∈ (⟨[], 0⟩ : Log).entries ∨
      ∃ e ∈ [freshEventFields, [("type", PyVal.pstr "t")]],
        validateEvent e = true ∧
          (enrichEvent "T" freshEventFields : Fields) = enrichEvent "T" e) := by
  have h := C2_ingest_skips_presence_invalid "T" ⟨[], 0⟩
    [freshEventFields, [("type", PyVal.pstr "t")]]
  refine ⟨h.1, ?_⟩
  have hm : ((0, enrichEvent "T" freshEventFields) : Nat × Fields) ∈
      (ingestBatch "T" ⟨[], 0⟩ [freshEventFields, [("type", PyVal.pstr "t")]]).1.entries := by
    decide
  simpa using h.2 _ hm

theorem handleEventFailure_eq_retry (cfg : RetryConfig) (data : Fields)
    (err now : String) (h : getRetryCount data + 1 ≤ (cfg.maxRetries : Int)) :
    handleEventFailure cfg data err now =
      .retryLater
        (setField (setField (setField data "retry_count" (.pint (getRetryCount data + 1)))
          "last_error" (.pstr err)) "failed_at" (.pstr now))
        (cfg.backoffBase ^ (getRetryCount data + 1)) := by
  simp only [handleEventFailure]
  rw [if_pos h]

theorem handleEventFailure_eq_dlq (cfg : RetryConfig) (data : Fields)
    (err now : String) (h : ¬ getRetryCount data + 1 ≤ (cfg.maxRetries : Int)) :
    handleEventFailure cfg data err now =
      .sendToDlq
        (setField (setField (setField data "retry_count" (.pint (getRetryCount data + 1)))
          "last_error" (.pstr err)) "failed_at" (.pstr now)) := by
  simp only [handleEventFailure]
  rw [if_neg h]

theorem failureData_lookup_rc (data : Fields) (err now : String) (rc : Int) :
    (setField (setField (setField data "retry_count" (.pint rc))
      "last_error" (.pstr err)) "failed_at" (.pstr now)).lookup "retry_count" =
        some (.pint rc) := by
  rw [lookup_setField_ne _ _ _ _ (by decide), lookup_setField_ne _ _ _ _ (by decide),
    lookup_setField_self]

theorem getRetryCount_failureData (data : Fields) (err now : String) (rc : Int) :
    getRetryCount (setField (setField (setField data "retry_count" (.pint rc))
      "last_error" (.pstr err)) "failed_at" (.pstr now)) = rc := by
  simp only [getRetryCount, failureData_lookup_rc]

theorem getRetryCount_handleEventFailure (cfg : RetryConfig) (data : Fields)
    (err now : String) :
    getRetryCount (decisionData (handleEventFailure cfg data err now)) =
      getRetryCount data + 1 := by
  by_cases h : getRetryCount data + 1 ≤ (cfg.maxRetries : Int)
  · rw [handleEventFailure_eq_retry cfg data err now h]
    simp only [decisionData, getRetryCount_failureData]
  · rw [handleEventFailure_eq_dlq cfg data err now h]
    simp only [decisionData, getRetryCount_failureData]

theorem nthFailureDecision_retry (cfg : RetryConfig) (err now : String)
    (data : Fields) (hfresh : data.lookup "retry_count" = none) :
    ∀ n : Nat, (n : Int) + 1 ≤ (cfg.maxRetries : Int) →
      isDlqDecision (nthFailureDecision cfg err now data n) = false ∧
      getRetryCount (decisionData (nthFailureDecision cfg err now data n)) = (n : Int) + 1 ∧
      decisionDelay (nthFailureDecision cfg err now data n) =
        some (cfg.backoffBase ^ ((n : Int) + 1)) := by
  have hrc0 : getRetryCount data = 0 := by
    simp [getRetryCount, hfresh]
  intro n
  induction n with
  | zero =>
    intro h
    have h' : getRetryCount data + 1 ≤ (cfg.maxRetries : Int) := by
      rw [hrc0]; exact_mod_cast h
    have hstep0 : nthFailureDecision cfg err now data 0 =
        handleEventFailure cfg data err now := rfl
    rw [hstep0, handleEventFailure_eq_retry cfg data err now h']
    refine ⟨rfl, ?_, ?_⟩
    · simp only [decisionData, getRetryCount_failureData, hrc0]
      norm_num
    · simp only [decisionDelay, hrc0]
      norm_num
  | succ n ih =>
    intro h
    have hn : (n : Int) + 1 ≤ (cfg.maxRetries : Int) := by push_cast at h ⊢; omega
    obtain ⟨hdlq, hrc, _⟩ := ih hn
    cases hdec : nthFailureDecision cfg err now data n with
    | sendToDlq d => rw [hdec] at hdlq; simp [isDlqDecision] at hdlq
    | retryLater d δ =>
      rw [hdec] at hrc
      have hd : getRetryCount d = (n : Int) + 1 := hrc
      have h' : getRetryCount d + 1 ≤ (cfg.maxRetries : Int) := by
        rw [hd]; push_cast at h ⊢; omega
      have hstep : nthFailureDecision cfg err now data (n + 1) =
          handleEventFailure cfg d err now := by
        show (match nthFailureDecision cfg err now data n with
          | .retryLater d _ => handleEventFailure cfg d err now
          | .sendToDlq d => .sendToDlq d) = _
        rw [hdec]
      rw [hstep, handleEventFailure_eq_retry cfg d err now h']
      refine ⟨rfl, ?_, ?_⟩
      · simp only [decisionData, getRetryCount_failureData, hd]
        push_cast; ring
      · simp only [decisionDelay, hd]
        norm_num

theorem nthFailureDecision_dlq (cfg : RetryConfig) (err now : String)
    (data : Fields) (hfresh : data.lookup "retry_count" = none) :
    isDlqDecision (nthFailureDecision cfg err now data cfg.maxRetries) = true ∧
    getRetryCount (decisionData (nthFailureDecision cfg err now data cfg.maxRetries)) =
      (cfg.maxRetries : Int) + 1 := by
  have hrc0 : getRetryCount data = 0 := by simp [getRetryCount, hfresh]
  rcases Nat.eq_zero_or_pos cfg.maxRetries with h0 | hpos
  · have h' : ¬ getRetryCount data + 1 ≤ (cfg.maxRetries : Int) := by
      rw [hrc0, h0]; norm_num
    have hstep0 : nthFailureDecision cfg err now data 0 =
        handleEventFailure cfg data err now := rfl
    rw [h0, hstep0, handleEventFailure_eq_dlq cfg data err now h']
    refine ⟨rfl, ?_⟩
    simp only [decisionData, getRetryCount_failureData, hrc0, h0]
    norm_num
  · obtain ⟨m, hm⟩ : ∃ m, cfg.maxRetries = m + 1 := ⟨cfg.maxRetries - 1, by omega⟩
    have hmle : (m : Int) + 1 ≤ (cfg.maxRetries : Int) := by
      rw [hm]; push_cast; omega
    obtain ⟨hdlq, hrc, _⟩ := nthFailureDecision_retry cfg err now data hfresh m hmle
    cases hdec : nthFailureDecision cfg err now data m with
    | sendToDlq d => rw [hdec] at hdlq; simp [isDlqDecision] at hdlq
    | retryLater d δ =>
      rw [hdec] at hrc
      have hd : getRetryCount d = (m : Int) + 1 := hrc
      have h' : ¬ getRetryCount d + 1 ≤ (cfg.maxRetries : Int) := by
        rw [hd, hm]; push_cast; omega
      have hstep : nthFailureDecision cfg err now data (m + 1) =
          handleEventFailure cfg d err now := by
        show (match nthFailureDecision cfg err now data m with
          | .retryLater d _ => handleEventFailure cfg d err now
          | .sendToDlq d => .sendToDlq d) = _
        rw [hdec]
      rw [hm, hstep, handleEventFailure_eq_dlq cfg d err now h']
      refine ⟨rfl, ?_⟩
      simp only [decisionData, getRetryCount_failureData, hd, hm]
      push_cast; ring

/-- C3 — counterexample.  With the default `DLQ_MAX_RETRIES = 3`, an
always-failing fresh event is retried on its first three failures and
promoted to the DLQ on the fourth total attempt — but the DLQ entry's
`final_retry_count` is `4`, not `3` as the claim states:
`_handle_event_failure` increments `retry_count` to 4 before the DLQ
branch, and `_send_to_dlq` copies that value into `final_retry_count`. -/
theorem C3_final_retry_count_counterexample :
    isDlqDecision (nthFailureDecision defaultRetryConfig "boom" "T" freshEventFields 0) = false ∧
    isDlqDecision (nthFailureDecision defaultRetryConfig "boom" "T" freshEventFields 1) = false ∧
    isDlqDecision (nthFailureDecision defaultRetryConfig "boom" "T" freshEventFields 2) = false ∧
    isDlqDecision (nthFailureDecision defaultRetryConfig "boom" "T" freshEventFields 3) = true ∧
    (buildDlqEvent 7 (decisionData (nthFailureDecision defaultRetryConfig "boom" "T"
      freshEventFields 3)) "boom" "T").lookup "final_retry_count" = some (.pint 4) ∧
    some (PyVal.pint 4) ≠ some (PyVal.pint 3) := by
  decide

/-- C3 (amended).  With `DLQ_MAX_RETRIES = 3`, an event without prior retry
metadata whose processing raises on the initial attempt and on every retry
is scheduled for retry after each of its first three failures and, after 4
total attempts (initial plus 3 retries), is appended to the dlq log — with
`final_retry_count` equal to `4` (that is, `MAX_RETRIES + 1`, the number of
failed attempts), not `3`. -/
theorem C3_dlq_after_four_attempts (cfg : RetryConfig) (data : Fields)
    (err now : String) (eid : Nat)
    (hfresh : data.lookup "retry_count" = none) (hM : cfg.maxRetries = 3) :
    (∀ k, k < 3 → isDlqDecision (nthFailureDecision cfg err now data k) = false) ∧
    isDlqDecision (nthFailureDecision cfg err now data 3) = true ∧
    (buildDlqEvent eid (decisionData (nthFailureDecision cfg err now data 3))
      err now).lookup "final_retry_count" = some (.pint 4) := by
  have hdlq := nthFailureDecision_dlq cfg err now data hfresh
  rw [hM] at hdlq
  refine ⟨?_, hdlq.1, ?_⟩
  · intro k hk
    have hkle : (k : Int) + 1 ≤ (cfg.maxRetries : Int) := by
      rw [hM]; push_cast; omega
    exact (nthFailureDecision_retry cfg err now data hfresh k hkle).1
  · have hrc : (decisionData (nthFailureDecision cfg err now data 3)).lookup
        "retry_count" = some (.pint 4) := by
      have h4 := hdlq.2
      unfold getRetryCount at h4
      cases hl : (decisionData (nthFailureDecision cfg err now data 3)).lookup
          "retry_count" with
      | none => rw [hl] at h4; norm_num at h4
      | some v =>
        cases v with
        | pint n =>
          rw [hl] at h4
          simp only at h4
          norm_num at h4
          rw [h4]
        | pstr s => rw [hl] at h4; norm_num at h4
        | pfloat q => rw [hl] at h4; norm_num at h4
    simp only [buildDlqEvent, lookup_setField_self, hrc]
    rfl

/-- Witness for C3 (amended) at concrete inputs. -/
theorem C3_dlq_after_four_attempts_witness :
    freshEventFields.lookup "retry_count" = none ∧
    isDlqDecision (nthFailureDecision defaultRetryConfig "err" "T2" freshEventFields 3) = true ∧
    (buildDlqEvent 9 (decisionData (nthFailureDecision defaultRetryConfig "err" "T2"
      freshEventFields 3)) "err" "T2").lookup "final_retry_count" = some (.pint 4) := by
  refine ⟨by decide, ?_, ?_⟩
  · exact (C3_dlq_after_four_attempts defaultRetryConfig freshEventFields "err" "T2" 9
      (by decide) rfl).2.1
  · exact (C3_dlq_after_four_attempts defaultRetryConfig freshEventFields "err" "T2" 9
      (by decide) rfl).2.2

/-- C6.  Each pass through `_handle_event_failure` increments
`retry_count`, so it is monotonically non-decreasing across
failure-handling steps; the retry pipeline re-appends an event to `events`
only when its new `retry_count` is at most `MAX_RETRIES` (so an event whose
count exceeds `MAX_RETRIES` is never re-appended by the pipeline — it is
promoted to the DLQ instead, exactly when the count exceeds
`MAX_RETRIES`); and the admin DLQ retry strips the retry metadata: no field
whose name starts with `retry_count`, `last_error`, `failed_at` or `dlq_`
survives `retry_dlq_event`'s cleaning, in particular the cleaned copy has
no `retry_count`. -/
theorem C6_retry_count_monotone (cfg : RetryConfig) (data : Fields) (err now : String) :
    getRetryCount data ≤
      getRetryCount (decisionData (handleEventFailure cfg data err now)) ∧
    (∀ d δ, handleEventFailure cfg data err now = .retryLater d δ →
      getRetryCount d ≤ (cfg.maxRetries : Int)) ∧
    (∀ d, handleEventFailure cfg data err now = .sendToDlq d →
      (cfg.maxRetries : Int) < getRetryCount d) ∧
    (∀ p ∈ cleanDlqFields data,
      strStartsWith p.1 "retry_count" = false ∧ strStartsWith p.1 "last_error" = false ∧
      strStartsWith p.1 "failed_at" = false ∧ strStartsWith p.1 "dlq_" = false) ∧
    (cleanDlqFields data).lookup "retry_count" = none := by
  refine ⟨?_, ?_, ?_, ?_, ?_⟩
  · rw [getRetryCount_handleEventFailure]; omega
  · intro d δ hd
    by_cases h : getRetryCount data + 1 ≤ (cfg.maxRetries : Int)
    · rw [handleEventFailure_eq_retry cfg data err now h] at hd
      cases hd
      rw [getRetryCount_failureData]
      exact h
    · rw [handleEventFailure_eq_dlq cfg data err now h] at hd
      cases hd
  · intro d hd
    by_cases h : getRetryCount data + 1 ≤ (cfg.maxRetries : Int)
    · rw [handleEventFailure_eq_retry cfg data err now h] at hd
      cases hd
    · rw [handleEventFailure_eq_dlq cfg data err now h] at hd
      cases hd
      rw [getRetryCount_failureData]
      omega
  · intro p hp
    simp only [cleanDlqFields, List.mem_filter, Bool.not_eq_eq_eq_not, Bool.not_true,
      Bool.or_eq_false_iff] at hp
    exact ⟨hp.2.1.1.1, hp.2.1.1.2, hp.2.1.2, hp.2.2⟩
  · apply lookup_eq_none_of_keys
    intro p hp hk
    simp only [cleanDlqFields, List.mem_filter] at hp
    rw [hk] at hp
    simp at hp
    exact absurd hp.2.1.1.1 (by decide)

/-- Witness for C6 at concrete inputs. -/
theorem C6_retry_count_monotone_witness :
    getRetryCount freshEventFields ≤
      getRetryCount (decisionData (handleEventFailure defaultRetryConfig
        freshEventFields "e6" "T6")) ∧
    (cleanDlqFields (buildDlqEvent 3 freshEventFields "e6" "T6")).lookup
      "retry_count" = none := by
  refine ⟨(C6_retry_count_monotone defaultRetryConfig freshEventFields "e6" "T6").1, ?_⟩
  exact (C6_retry_count_monotone defaultRetryConfig
    (buildDlqEvent 3 freshEventFields "e6" "T6") "e6" "T6").2.2.2.2

/-- C7.  On the k-th failure of a fresh event (k = the incremented
`retry_count`), when k ≤ `MAX_RETRIES` the scheduled delay is
`BACKOFF_BASE ^ k` seconds; with the default base 2.0 and `MAX_RETRIES` 3
the successive delays are 2, 4, 8; and for any base ≥ 1 the delays are
non-decreasing across successive retries. -/
theorem C7_backoff_delays (cfg : RetryConfig) (data : Fields) (err now : String)
    (hfresh : data.lookup "retry_count" = none) :
    (∀ (data' d' : Fields) (δ : ℚ),
      handleEventFailure cfg data' err now = .retryLater d' δ →
      δ = cfg.backoffBase ^ (getRetryCount data' + 1)) ∧
    (∀ n : Nat, (n : Int) + 1 ≤ (cfg.maxRetries : Int) →
      decisionDelay (nthFailureDecision cfg err now data n) =
        some (cfg.backoffBase ^ ((n : Int) + 1))) ∧
    (1 ≤ cfg.backoffBase → ∀ m n : Nat, m ≤ n → (n : Int) + 1 ≤ (cfg.maxRetries : Int) →
      (decisionDelay (nthFailureDecision cfg err now data m)).getD 0 ≤
        (decisionDelay (nthFailureDecision cfg err now data n)).getD 0) ∧
    (decisionDelay (nthFailureDecision defaultRetryConfig err now data 0) = some 2 ∧
     decisionDelay (nthFailureDecision defaultRetryConfig err now data 1) = some 4 ∧
     decisionDelay (nthFailureDecision defaultRetryConfig err now data 2) = some 8) := by
  refine ⟨?_, ?_, ?_, ?_, ?_, ?_⟩
  · intro data' d' δ hd
    by_cases h : getRetryCount data' + 1 ≤ (cfg.maxRetries : Int)
    · rw [handleEventFailure_eq_retry cfg data' err now h] at hd
      cases hd
      rfl
    · rw [handleEventFailure_eq_dlq cfg data' err now h] at hd
      cases hd
  · intro n hn
    exact (nthFailureDecision_retry cfg err now data hfresh n hn).2.2
  · intro hbase m n hmn hn
    have hm : (m : Int) + 1 ≤ (cfg.maxRetries : Int) := by
      have : (m : Int) ≤ (n : Int) := by exact_mod_cast hmn
      omega
    rw [(nthFailureDecision_retry cfg err now data hfresh m hm).2.2,
      (nthFailureDecision_retry cfg err now data hfresh n hn).2.2]
    simp only [Option.getD_some]
    apply zpow_le_zpow_right₀ hbase
    exact_mod_cast Nat.succ_le_succ hmn
  · have := (nthFailureDecision_retry defaultRetryConfig err now data hfresh 0
      (by norm_num [defaultRetryConfig])).2.2
    rw [this]; norm_num [defaultRetryConfig]
  · have := (nthFailureDecision_retry defaultRetryConfig err now data hfresh 1
      (by norm_num [defaultRetryConfig])).2.2
    rw [this]; norm_num [defaultRetryConfig]
  · have := (nthFailureDecision_retry defaultRetryConfig err now data hfresh 2
      (by norm_num [defaultRetryConfig])).2.2
    rw [this]; norm_num [defaultRetryConfig]

/-- Witness for C7 at concrete inputs. -/
theorem C7_backoff_delays_witness :
    decisionDelay (nthFailureDecision defaultRetryConfig "e7" "T7" freshEventFields 0) =
      some 2 ∧
    decisionDelay (nthFailureDecision defaultRetryConfig "e7" "T7" freshEventFields 1) =
      some 4 ∧
    decisionDelay (nthFailureDecision defaultRetryConfig "e7" "T7" freshEventFields 2) =
      some 8 := by
  exact (C7_backoff_delays defaultRetryConfig freshEventFields "e7" "T7" (by decide)).2.2.2

theorem ingestBatch_length_aux (now : String) (batch : List Fields) :
    ∀ (log : Log) (n : Nat), log.entries.length ≤ 1000000 →
      ((batch.foldl
        (fun acc e =>
          if validateEvent e then
            (acc.1.xadd (enrichEvent now e) (some 1000000), acc.2 + 1)
          else acc)
        (log, n)).1.entries.length) ≤ 1000000 := by
  induction batch with
  | nil => exact fun log n h => h
  | cons e batch ih =>
    intro log n h
    by_cases hv : validateEvent e = true
    · simp only [List.foldl_cons, hv, if_true]
      exact ih _ _ (xadd_capped_length_le _ _ _)
    · simp only [List.foldl_cons]
      rw [if_neg hv]
      exact ih _ _ h

/-- C5 — counterexample.  Every other append path passes a `maxlen`, but
the re-append performed by the admin DLQ retry (`retry_dlq_event`) calls
`XADD` on `events:stream` with no `maxlen`: starting from an events log
already at its 1,000,000-entry cap, one admin retry leaves it with
1,000,001 entries, exceeding the cap. -/
theorem C5_admin_retry_uncapped_counterexample :
    fullEventsLog.entries.length = 1000000 ∧
    (retryDlqEvent fullEventsLog oneDlqLog 5).1.1.entries.length = 1000001 ∧
    1000000 < 1000001 := by
  have hlen : fullEventsLog.entries.length = 1000000 := by
    show (List.replicate 1000000 ((0 : Nat), freshEventFields)).length = 1000000
    rw [List.length_replicate]
  refine ⟨hlen, ?_, by norm_num⟩
  have hfind : oneDlqLog.entries.find? (fun p => p.1 == 5) =
      some (5, freshEventFields) := by decide
  simp only [retryDlqEvent, hfind]
  rw [xadd_none_length, hlen]

/-- C5 (amended).  Every append to the events and processed logs performed
by ingestion, by the worker's processed-event store and by the retry
re-append is capped at 1,000,000 entries, and every DLQ append is capped at
100,000 (a capped `XADD` always leaves at most `cap` entries) — except the
re-append performed by the admin DLQ retry operation, which passes no cap
and can therefore grow the events log by one entry beyond its cap per
admin retry. -/
theorem C5_log_caps :
    (∀ (l : Log) (f : Fields) (cap : Nat),
      (l.xadd f (some cap)).entries.length ≤ cap) ∧
    (∀ (now : String) (log : Log) (batch : List Fields),
      log.entries.length ≤ 1000000 →
      (ingestBatch now log batch).1.entries.length ≤ 1000000) ∧
    (∀ (st : WorkerState) (data : Fields) (flt : WorkerFaults) (dur : ℚ)
      (now wid pt : String), st.processedLog.entries.length ≤ 1000000 →
      (processSingleEvent st data flt dur now wid pt).1.processedLog.entries.length ≤
        1000000) ∧
    (∀ (events : Log) (data : Fields),
      (retryLaterAppend events data).entries.length ≤ 1000000) ∧
    (∀ (dlq : Log) (eid : Nat) (data : Fields) (err now : String),
      (sendToDlqLog dlq eid data err now).entries.length ≤ 100000) ∧
    (∀ (events dlq : Log) (eid : Nat),
      (retryDlqEvent events dlq eid).1.1.entries.length ≤ events.entries.length + 1 ∧
      (retryDlqEvent events dlq eid).1.2.entries.length ≤ dlq.entries.length) := by
  refine ⟨fun l f cap => xadd_capped_length_le l f cap, ?_, ?_, ?_, ?_, ?_⟩
  · intro now log batch h
    exact ingestBatch_length_aux now batch log 0 h
  · intro st data flt dur now wid pt h
    unfold processSingleEvent
    split
    · exact h
    · split
      · exact h
      · split
        · exact h
        · dsimp only
          split
          · exact h
          · exact xadd_capped_length_le _ _ _
  · intro events data
    exact xadd_capped_length_le _ _ _
  · intro dlq eid data err now
    exact xadd_capped_length_le _ _ _
  · intro events dlq eid
    unfold retryDlqEvent
    cases hfind : dlq.entries.find? (fun p => p.1 == eid) with
    | none => exact ⟨Nat.le_succ _, Nat.le_refl _⟩
    | some p =>
      constructor
      · rw [xadd_none_length]
      · exact List.length_filter_le _ _

/-- Witness for C5 (amended) at concrete logs. -/
theorem C5_log_caps_witness :
    (ingestBatch "T" ⟨[], 0⟩ [freshEventFields]).1.entries.length ≤ 1000000 ∧
    (sendToDlqLog ⟨[], 0⟩ 1 freshEventFields "e5" "T5").entries.length ≤ 100000 := by
  refine ⟨C5_log_caps.2.1 "T" ⟨[], 0⟩ [freshEventFields] (by simp), ?_⟩
  exact C5_log_caps.2.2.2.2.1 ⟨[], 0⟩ 1 freshEventFields "e5" "T5"

theorem recordN_length (m : MetricsState) (dur : ℚ) :
    ∀ n, (recordN m dur n).processing_times.length = m.processing_times.length + n := by
  intro n
  induction n with
  | zero => rfl
  | succ n ih =>
    show (recordProcessingEnd (recordN m dur n) dur false).processing_times.length = _
    simp only [recordProcessingEnd, List.length_append, ih, List.length_singleton]
    omega

/-- C8 — counterexample.  `MetricsCollector.processing_times` is a plain
Python list that `record_processing_end` appends to and nothing ever
trims: after 10,001 recorded samples on a fresh collector the store holds
10,001 samples, exceeding the claimed ≈10,000-sample bound — there is no
bounded reservoir and no eviction. -/
theorem C8_unbounded_reservoir_counterexample :
    (recordN initialMetrics 1 10001).processing_times.length = 10001 ∧
    10000 < 10001 := by
  refine ⟨?_, by norm_num⟩
  rw [recordN_length]
  simp [initialMetrics]

/-- C8 (amended).  The processing-latency sample store is an unbounded
list: each `record_processing_end` appends exactly one sample and evicts
nothing, so after n recorded samples the store has grown by exactly n — its
size is not bounded by 10,000 (or by any constant) over reachable
states. -/
theorem C8_latency_store_unbounded (m : MetricsState) (dur : ℚ) (b : Bool) (n : Nat) :
    (recordProcessingEnd m dur b).processing_times = m.processing_times ++ [dur] ∧
    (recordN m dur n).processing_times.length = m.processing_times.length + n :=
  ⟨rfl, recordN_length m dur n⟩

theorem processSingleEvent_metrics (st : WorkerState) (data : Fields)
    (flt : WorkerFaults) (dur : ℚ) (now wid pt : String) :
    (processSingleEvent st data flt dur now wid pt).1.metrics =
      recordProcessingEnd st.metrics dur (anomFlag st data flt) := by
  unfold processSingleEvent anomFlag
  split
  · rfl
  · split
    · rfl
    · split
      · rfl
      · rfl

theorem processSingleEvent_raised_anomFlag (st : WorkerState) (data : Fields)
    (flt : WorkerFaults) (dur : ℚ) (now wid pt : String) (e : String)
    (h : (processSingleEvent st data flt dur now wid pt).2 = .raised e) :
    anomFlag st data flt = false := by
  unfold processSingleEvent at h
  unfold anomFlag
  split at h
  · split
    · rfl
    · simp_all
  · split at h
    · simp_all
    · split at h
      · simp_all
      · simp at h

theorem processSingleEvent_ok_anomFlag (st : WorkerState) (data : Fields)
    (flt : WorkerFaults) (dur : ℚ) (now wid pt : String)
    (h : (processSingleEvent st data flt dur now wid pt).2 = .ok) :
    anomFlag st data flt =
      (st.detector.detect ((pyFloat ((data.lookup "value").getD (.pint 0))).getD 0)).2.1 := by
  unfold processSingleEvent at h
  unfold anomFlag
  split at h
  · simp at h
  · split at h
    · simp at h
    · split at h
      · simp at h
      · simp_all

theorem failure_action_of_raised (cfg : RetryConfig) (st : WorkerState) (eid : Nat)
    (data : Fields) (flt : WorkerFaults) (dur : ℚ) (now wid pt : String)
    (st' : WorkerState) (err : String)
    (h : processSingleEvent st data flt dur now wid pt = (st', .raised err)) :
    isFailureAction (processWithFailureHandling cfg st eid data flt dur now wid pt).2 = true := by
  unfold processWithFailureHandling
  rw [h]
  dsimp only
  cases hd : handleEventFailure cfg data err now <;> simp [hd, isFailureAction]

theorem processSingleEvent_ok_eq (st : WorkerState) (data : Fields)
    (flt : WorkerFaults) (dur : ℚ) (now wid pt : String) (q : ℚ)
    (hv : validateEvent data = true)
    (hpf : pyFloat ((data.lookup "value").getD (.pint 0)) = some q)
    (hdr : flt.detectRaises = false) :
    processSingleEvent st data flt dur now wid pt =
      ({ st with
          detector := (st.detector.detect q).1,
          metrics := recordProcessingEnd st.metrics dur (st.detector.detect q).2.1,
          processedLog :=
            if flt.storeRaises = true then st.processedLog
            else st.processedLog.xadd
              (buildProcessedEvent data now wid (st.detector.detect q).2.1
                (st.detector.detect q).2.2 pt) (some 1000000),
          processed_count := st.processed_count + 1 }, .ok) := by
  unfold processSingleEvent
  rw [if_neg (by simp [hv]), hpf]
  dsimp only
  rw [if_neg (by simp [hdr])]

/-- C4 — counterexample.  For a valid event whose `processed`-stream `XADD`
raises (and nothing else fails), `_store_processed_event` catches and
merely logs the exception, so `_process_single_event` returns normally: the
attempt is counted as successfully processed (`processed_count`
incremented, no failure handling), and the processed log gains no entry —
the claim that an exception in the processed-log append triggers the
retry/DLQ path is false. -/
theorem C4_store_append_swallowed_counterexample :
    (processWithFailureHandling defaultRetryConfig freshWorker 0 freshEventFields
      storeOnlyFault 1 "T" "worker-0" "pt").2 = .processedOk ∧
    (processWithFailureHandling defaultRetryConfig freshWorker 0 freshEventFields
      storeOnlyFault 1 "T" "worker-0" "pt").1.processed_count = 1 ∧
    (processWithFailureHandling defaultRetryConfig freshWorker 0 freshEventFields
      storeOnlyFault 1 "T" "worker-0" "pt").1.failed_count = 0 ∧
    (processWithFailureHandling defaultRetryConfig freshWorker 0 freshEventFields
      storeOnlyFault 1 "T" "worker-0" "pt").1.processedLog.entries = [] := by
  decide

/-- C4 (amended).  Any exception raised in steps 2–5 of `process_single` —
validation, `float` parsing, anomaly detection — triggers the
failure-handling path (retry scheduling or DLQ promotion) for that event;
but an exception raised by the append of the ProcessedEvent to the
processed log is caught inside `_store_processed_event` and only logged:
the attempt still returns success, is counted in `processed_count`, and
leaves the processed log unchanged. -/
theorem C4_failure_handling_paths (cfg : RetryConfig) (st : WorkerState) (eid : Nat)
    (data : Fields) (flt : WorkerFaults) (dur : ℚ) (now wid pt : String) :
    (validateEvent data = false →
      isFailureAction (processWithFailureHandling cfg st eid data flt dur now wid pt).2 =
        true) ∧
    (pyFloat ((data.lookup "value").getD (.pint 0)) = none →
      isFailureAction (processWithFailureHandling cfg st eid data flt dur now wid pt).2 =
        true) ∧
    (flt.detectRaises = true →
      isFailureAction (processWithFailureHandling cfg st eid data flt dur now wid pt).2 =
        true) ∧
    (∀ q, validateEvent data = true →
      pyFloat ((data.lookup "value").getD (.pint 0)) = some q →
      flt.detectRaises = false →
      (processWithFailureHandling cfg st eid data flt dur now wid pt).2 = .processedOk ∧
      (flt.storeRaises = true →
        (processWithFailureHandling cfg st eid data flt dur now wid pt).1.processedLog =
          st.processedLog ∧
        (processWithFailureHandling cfg st eid data flt dur now wid pt).1.processed_count =
          st.processed_count + 1)) := by
  have hinv : validateEvent data = false →
      processSingleEvent st data flt dur now wid pt =
        ({ st with metrics := recordProcessingEnd st.metrics dur false },
          .raised "Invalid event format") := by
    intro h
    unfold processSingleEvent
    rw [if_pos h]
  have hbadf : validateEvent data ≠ false →
      pyFloat ((data.lookup "value").getD (.pint 0)) = none →
      processSingleEvent st data flt dur now wid pt =
        ({ st with metrics := recordProcessingEnd st.metrics dur false },
          .raised "could not convert value to float") := by
    intro hv h
    unfold processSingleEvent
    rw [if_neg hv, h]
  refine ⟨?_, ?_, ?_, ?_⟩
  · intro h
    exact failure_action_of_raised cfg st eid data flt dur now wid pt _ _ (hinv h)
  · intro h
    by_cases hv : validateEvent data = false
    · exact failure_action_of_raised cfg st eid data flt dur now wid pt _ _ (hinv hv)
    · exact failure_action_of_raised cfg st eid data flt dur now wid pt _ _ (hbadf hv h)
  · intro h
    by_cases hv : validateEvent data = false
    · exact failure_action_of_raised cfg st eid data flt dur now wid pt _ _ (hinv hv)
    · cases hpf : pyFloat ((data.lookup "value").getD (.pint 0)) with
      | none =>
        exact failure_action_of_raised cfg st eid data flt dur now wid pt _ _ (hbadf hv hpf)
      | some q =>
        have heq : processSingleEvent st data flt dur now wid pt =
            ({ st with metrics := recordProcessingEnd st.metrics dur false },
              .raised "anomaly detection failed") := by
          unfold processSingleEvent
          rw [if_neg hv, hpf]
          dsimp only
          rw [if_pos h]
        exact failure_action_of_raised cfg st eid data flt dur now wid pt _ _ heq
  · intro q hv hpf hdr
    have hok := processSingleEvent_ok_eq st data flt dur now wid pt q hv hpf hdr
    unfold processWithFailureHandling
    rw [hok]
    refine ⟨rfl, fun hsr => ⟨?_, rfl⟩⟩
    dsimp only
    rw [if_pos hsr]

/-- Witness for C4 (amended) at concrete inputs. -/
theorem C4_failure_handling_paths_witness :
    isFailureAction (processWithFailureHandling defaultRetryConfig freshWorker 1
      badValueEvent ⟨false, false⟩ 1 "T4" "w4" "p4").2 = true ∧
    (processWithFailureHandling defaultRetryConfig freshWorker 1
      freshEventFields ⟨false, true⟩ 1 "T4" "w4" "p4").2 = .processedOk ∧
    (processWithFailureHandling defaultRetryConfig freshWorker 1
      freshEventFields ⟨false, true⟩ 1 "T4" "w4" "p4").1.processedLog =
        freshWorker.processedLog := by
  refine ⟨?_, ?_, ?_⟩
  · exact (C4_failure_handling_paths defaultRetryConfig freshWorker 1 badValueEvent
      ⟨false, false⟩ 1 "T4" "w4" "p4").2.1 (by decide)
  · exact ((C4_failure_handling_paths defaultRetryConfig freshWorker 1 freshEventFields
      ⟨false, true⟩ 1 "T4" "w4" "p4").2.2.2 1 (by decide) (by decide) rfl).1
  · exact (((C4_failure_handling_paths defaultRetryConfig freshWorker 1 freshEventFields
      ⟨false, true⟩ 1 "T4" "w4" "p4").2.2.2 1 (by decide) (by decide) rfl).2 rfl).1

/-- C10.  Every `_process_single_event` attempt — successful or failed —
calls `record_processing_end` exactly once: its metrics are exactly those
of one `record_processing_end` application, so `events_processed` grows by
one and one latency sample is appended whether the attempt succeeded or
raised; `events_per_second` in the summary is derived from this counter and
therefore counts failed attempts too; and `anomalies_detected` grows only
on a successful attempt whose detector verdict was `True`. -/
theorem C10_record_processing_end_once (st : WorkerState) (data : Fields)
    (flt : WorkerFaults) (dur : ℚ) (now wid pt : String) (u : ℚ) :
    (processSingleEvent st data flt dur now wid pt).1.metrics.events_processed =
      st.metrics.events_processed + 1 ∧
    (processSingleEvent st data flt dur now wid pt).1.metrics.processing_times =
      st.metrics.processing_times ++ [dur] ∧
    (∀ e, (processSingleEvent st data flt dur now wid pt).2 = .raised e →
      (processSingleEvent st data flt dur now wid pt).1.metrics.anomalies_detected =
        st.metrics.anomalies_detected) ∧
    ((processSingleEvent st data flt dur now wid pt).2 = .ok →
      (processSingleEvent st data flt dur now wid pt).1.metrics.anomalies_detected =
        st.metrics.anomalies_detected +
          (if (st.detector.detect
              ((pyFloat ((data.lookup "value").getD (.pint 0))).getD 0)).2.1
            then 1 else 0)) ∧
    metricsEventsPerSecond (processSingleEvent st data flt dur now wid pt).1.metrics u =
      ((st.metrics.events_processed + 1 : Nat) : ℚ) / max 1 u := by
  have hm := processSingleEvent_metrics st data flt dur now wid pt
  refine ⟨?_, ?_, ?_, ?_, ?_⟩
  · rw [hm]; rfl
  · rw [hm]; rfl
  · intro e he
    rw [hm]
    simp [recordProcessingEnd,
      processSingleEvent_raised_anomFlag st data flt dur now wid pt e he]
  · intro hok
    rw [hm]
    simp only [recordProcessingEnd,
      processSingleEvent_ok_anomFlag st data flt dur now wid pt hok]
  · rw [hm]
    simp only [metricsEventsPerSecond, recordProcessingEnd]

/-- Witness for C10 at concrete inputs (one raising attempt, one
successful attempt). -/
theorem C10_record_processing_end_once_witness :
    (processSingleEvent freshWorker badValueEvent ⟨false, false⟩ 2 "Ta" "wa" "pa").1.metrics.events_processed =
      freshWorker.metrics.events_processed + 1 ∧
    (processSingleEvent freshWorker badValueEvent ⟨false, false⟩ 2 "Ta" "wa" "pa").1.metrics.anomalies_detected =
      freshWorker.metrics.anomalies_detected ∧
    (processSingleEvent freshWorker freshEventFields ⟨false, false⟩ 2 "Ta" "wa" "pa").1.metrics.anomalies_detected =
      freshWorker.metrics.anomalies_detected +
        (if (freshWorker.detector.detect
            ((pyFloat ((freshEventFields.lookup "value").getD (.pint 0))).getD 0)).2.1
          then 1 else 0) := by
  refine ⟨?_, ?_, ?_⟩
  · exact (C10_record_processing_end_once freshWorker badValueEvent ⟨false, false⟩ 2
      "Ta" "wa" "pa" 1).1
  · exact (C10_record_processing_end_once freshWorker badValueEvent ⟨false, false⟩ 2
      "Ta" "wa" "pa" 1).2.2.1 "could not convert value to float" (by decide)
  · exact (C10_record_processing_end_once freshWorker freshEventFields ⟨false, false⟩ 2
      "Ta" "wa" "pa" 1).2.2.2.1 (by decide)

theorem foldl_disconnect (ds : List Nat) :
    ∀ (st : WSState), (∀ c ∈ ds, c ∈ st.active_connections) → ds.Nodup →
      ((ds.foldl (fun s c => s.disconnect c) st).active_connections =
        st.active_connections.filter (fun c => !(ds.contains c))) ∧
      ((ds.foldl (fun s c => s.disconnect c) st).connection_metadata =
        st.connection_metadata.filter (fun p => !(ds.contains p.1))) := by
  induction ds with
  | nil =>
    intro st _ _
    constructor <;> simp
  | cons c ds ih =>
    intro st hsub hnd
    have hc : c ∈ st.active_connections := hsub c (by simp)
    have hdis : st.disconnect c =
        ⟨st.active_connections.filter (fun x => x != c),
         st.connection_metadata.filter (fun p => p.1 != c)⟩ := by
      unfold WSState.disconnect
      rw [if_pos hc]
    have hcd : c ∉ ds := (List.nodup_cons.mp hnd).1
    have hsub' : ∀ c' ∈ ds, c' ∈ (st.disconnect c).active_connections := by
      intro c' hc'
      rw [hdis]
      simp only [List.mem_filter]
      refine ⟨hsub c' (List.mem_cons_of_mem _ hc'), ?_⟩
      have hne : c' ≠ c := fun hEq => hcd (hEq ▸ hc')
      simpa using hne
    have hrec := ih (st.disconnect c) hsub' (List.nodup_cons.mp hnd).2
    constructor
    · rw [List.foldl_cons, hrec.1, hdis]
      simp only [List.filter_filter]
      apply List.filter_congr
      intro x hx
      have hbe : (x != c) = !decide (x = c) := by
        by_cases hxc : x = c <;> simp [hxc]
      simp [List.contains_cons, Bool.not_or, Bool.and_comm, hbe]
    · rw [List.foldl_cons, hrec.2, hdis]
      simp only [List.filter_filter]
      apply List.filter_congr
      intro p hp
      have hbe : (p.1 != c) = !decide (p.1 = c) := by
        by_cases hxc : p.1 = c <;> simp [hxc]
      simp [List.contains_cons, Bool.not_or, Bool.and_comm, hbe]

/-- C9.  After a completed `broadcast`, a channel remains in the subscriber
set iff it was subscribed and its send succeeded, so every channel whose
send failed has been removed from the set and from the per-session
metadata; the failing channels are disconnected only after the iteration,
and exactly the subscribers whose send succeeded receive the message;
likewise a failed `send_personal_message` removes the channel from the set
and the metadata. -/
theorem C9_failed_channels_removed (st : WSState) (sendFails : Nat → Bool)
    (hnd : st.active_connections.Nodup)
    (hwf : ∀ p ∈ st.connection_metadata, p.1 ∈ st.active_connections) :
    (∀ c, c ∈ (broadcast st sendFails).1.active_connections ↔
      c ∈ st.active_connections ∧ sendFails c = false) ∧
    (∀ c, sendFails c = true →
      (broadcast st sendFails).1.connection_metadata.lookup c = none) ∧
    (∀ c, c ∈ (broadcast st sendFails).2 ↔
      c ∈ st.active_connections ∧ sendFails c = false) ∧
    (∀ c, sendFails c = true →
      c ∉ (sendPersonalMessage st c sendFails).active_connections ∧
      (sendPersonalMessage st c sendFails).connection_metadata.lookup c = none) := by
  have hpersonal : ∀ c, sendFails c = true →
      c ∉ (sendPersonalMessage st c sendFails).active_connections ∧
      (sendPersonalMessage st c sendFails).connection_metadata.lookup c = none := by
    intro c hfail
    unfold sendPersonalMessage
    rw [if_pos hfail]
    unfold WSState.disconnect
    by_cases hc : c ∈ st.active_connections
    · rw [if_pos hc]
      constructor
      · intro hmem
        simp only [List.mem_filter] at hmem
        simp at hmem
      · apply lookup_eq_none_of_keys
        intro p hp
        simp only [List.mem_filter] at hp
        simpa using hp.2
    · rw [if_neg hc]
      refine ⟨hc, ?_⟩
      apply lookup_eq_none_of_keys
      intro p hp hpc
      exact hc (hpc ▸ hwf p hp)
  by_cases hemp : st.active_connections.isEmpty
  · have hnil : st.active_connections = [] := by
      simpa using hemp
    have hbr : broadcast st sendFails = (st, []) := by
      unfold broadcast
      rw [if_pos hemp]
    refine ⟨?_, ?_, ?_, hpersonal⟩
    · intro c
      rw [hbr]
      simp [hnil]
    · intro c _
      rw [hbr]
      apply lookup_eq_none_of_keys
      intro p hp hpc
      have := hwf p hp
      rw [hnil] at this
      simp at this
    · intro c
      rw [hbr]
      simp [hnil]
  · have hbr : broadcast st sendFails =
        ((st.active_connections.filter (fun c => sendFails c)).foldl
          (fun s c => s.disconnect c) st,
         st.active_connections.filter (fun c => !(sendFails c))) := by
      unfold broadcast
      rw [if_neg hemp]
    have hsub : ∀ c ∈ st.active_connections.filter (fun c => sendFails c),
        c ∈ st.active_connections := fun c hc => (List.mem_filter.mp hc).1
    have hfold := foldl_disconnect (st.active_connections.filter (fun c => sendFails c))
      st hsub (hnd.filter _)
    refine ⟨?_, ?_, ?_, hpersonal⟩
    · intro c
      rw [hbr]
      dsimp only
      rw [hfold.1]
      simp only [List.mem_filter, Bool.not_eq_eq_eq_not, Bool.not_true]
      constructor
      · rintro ⟨hcm, hnc⟩
        refine ⟨hcm, ?_⟩
        cases hsf : sendFails c with
        | false => rfl
        | true =>
          exfalso
          have hin : c ∈ st.active_connections.filter (fun c => sendFails c) :=
            List.mem_filter.mpr ⟨hcm, hsf⟩
          simp [hin] at hnc
      · rintro ⟨hcm, hsf⟩
        refine ⟨hcm, ?_⟩
        have hout : c ∉ st.active_connections.filter (fun c => sendFails c) := by
          intro hin
          have := (List.mem_filter.mp hin).2
          rw [hsf] at this
          exact Bool.false_ne_true this
        simpa using hout
    · intro c hfail
      rw [hbr]
      dsimp only
      rw [hfold.2]
      apply lookup_eq_none_of_keys
      intro p hp hpc
      have hpm := List.mem_filter.mp hp
      have hcm : c ∈ st.active_connections := hpc ▸ hwf p hpm.1
      have hin : p.1 ∈ st.active_connections.filter (fun c => sendFails c) :=
        List.mem_filter.mpr ⟨hpc ▸ hcm, by rw [hpc, hfail]⟩
      have := hpm.2
      simp [hin] at this
    · intro c
      rw [hbr]
      dsimp only
      simp only [List.mem_filter, Bool.not_eq_eq_eq_not, Bool.not_true]

/-- Witness for C9 at a concrete three-subscriber state where channel 2
fails its send. -/
theorem C9_failed_channels_removed_witness :
    (2 ∈ (broadcast threeClients (fun c => c == 2)).1.active_connections ↔
      2 ∈ threeClients.active_connections ∧ ((2 : Nat) == 2) = false) ∧
    (broadcast threeClients (fun c => c == 2)).1.connection_metadata.lookup 2 = none ∧
    (1 ∈ (broadcast threeClients (fun c => c == 2)).2 ↔
      1 ∈ threeClients.active_connections ∧ ((1 : Nat) == 2) = false) := by
  have h := C9_failed_channels_removed threeClients (fun c => c == 2)
    (by decide) (by decide)
  exact ⟨h.1 2, h.2.1 2 (by decide), h.2.2.1 1⟩

theorem pushWindow_length (ws : Nat) (w : List ℚ) (v : ℚ) :
    (pushWindow ws w v).length = min (w.length + 1) ws := by
  simp only [pushWindow, List.length_drop, List.length_append, List.length_singleton]
  omega

theorem pushWindow_lt (ws : Nat) (w : List ℚ) (v : ℚ) (h : w.length < ws) :
    pushWindow ws w v = w ++ [v] := by
  unfold pushWindow
  have : w.length + 1 - ws = 0 := by omega
  rw [this, List.drop_zero]

theorem pushWindow_full (ws : Nat) (w : List ℚ) (v : ℚ) (h : w.length = ws)
    (hpos : 0 < ws) : pushWindow ws w v = w.tail ++ [v] := by
  unfold pushWindow
  have h1 : w.length + 1 - ws = 1 := by omega
  rw [h1, List.drop_append_of_le_length (by omega), List.drop_one]

theorem pushWindow_mem (ws : Nat) (w : List ℚ) (v x : ℚ)
    (hx : x ∈ pushWindow ws w v) : x ∈ w ∨ x = v := by
  unfold pushWindow at hx
  have hm := List.mem_of_mem_drop hx
  rcases List.mem_append.mp hm with h | h
  · exact Or.inl h
  · simp at h
    exact Or.inr h

theorem detect_window (d : AnomalyDetector) (v : ℚ) :
    (d.detect v).1.window = pushWindow d.window_size d.window v := by
  unfold AnomalyDetector.detect
  dsimp only
  split
  · rfl
  · split
    · rfl
    · rfl

theorem detect_snd_lt30 (d : AnomalyDetector) (v : ℚ)
    (h : (pushWindow d.window_size d.window v).length < 30) :
    (d.detect v).2 = (false, 0) := by
  unfold AnomalyDetector.detect
  rw [if_pos h]

theorem detect_snd_var0 (d : AnomalyDetector) (v : ℚ)
    (h1 : ¬ (pushWindow d.window_size d.window v).length < 30)
    (h2 : listVar (pushWindow d.window_size d.window v) = 0) :
    (d.detect v).2 = (false, 0) := by
  unfold AnomalyDetector.detect
  rw [if_neg h1]
  dsimp only
  rw [if_pos h2]

theorem detect_snd_main (d : AnomalyDetector) (v : ℚ)
    (h1 : ¬ (pushWindow d.window_size d.window v).length < 30)
    (h2 : listVar (pushWindow d.window_size d.window v) ≠ 0) :
    (d.detect v).2 =
      ((decide (d.threshold < 0) ||
          decide (d.threshold ^ 2 * listVar (pushWindow d.window_size d.window v) <
            (v - listMean (pushWindow d.window_size d.window v)) ^ 2)),
        (v - listMean (pushWindow d.window_size d.window v)) ^ 2 /
          listVar (pushWindow d.window_size d.window v)) := by
  unfold AnomalyDetector.detect
  rw [if_neg h1]
  dsimp only
  rw [if_neg h2]

theorem listVar_nonneg (w : List ℚ) : 0 ≤ listVar w := by
  unfold listVar
  apply div_nonneg
  · apply List.sum_nonneg
    intro x hx
    rcases List.mem_map.mp hx with ⟨y, _, rfl⟩
    positivity
  · positivity

theorem listSum_const (w : List ℚ) (v : ℚ) (h : ∀ x ∈ w, x = v) :
    w.sum = (w.length : ℚ) * v := by
  induction w with
  | nil => simp
  | cons a w ih =>
    have ha : a = v := h a (by simp)
    have hw : ∀ x ∈ w, x = v := fun x hx => h x (List.mem_cons_of_mem _ hx)
    rw [List.sum_cons, ha, ih hw, List.length_cons]
    push_cast
    ring

theorem listMean_const (w : List ℚ) (v : ℚ) (h : ∀ x ∈ w, x = v) (hne : w ≠ []) :
    listMean w = v := by
  unfold listMean
  rw [listSum_const w v h]
  have hlen : (w.length : ℚ) ≠ 0 := by
    have : w.length ≠ 0 := by simpa [List.length_eq_zero] using hne
    exact_mod_cast this
  field_simp

theorem listVar_const (w : List ℚ) (v : ℚ) (h : ∀ x ∈ w, x = v) : listVar w = 0 := by
  have hz : ((w.map (fun x => (x - listMean w) ^ 2)).sum) = 0 := by
    apply List.sum_eq_zero
    intro x hx
    rcases List.mem_map.mp hx with ⟨y, hy, hxy⟩
    have hne : w ≠ [] := by
      intro hnil
      rw [hnil] at hy
      simp at hy
    rw [← hxy, h y hy, listMean_const w v h hne]
    ring
  unfold listVar
  rw [hz, zero_div]

theorem detect_bool_eq_real (thr m var vq : ℚ) (hvar : 0 < var) :
    ((decide (thr < 0) || decide (thr ^ 2 * var < (vq - m) ^ 2)) = true ↔
      (thr : ℝ) < |(vq : ℝ) - (m : ℝ)| / Real.sqrt ((var : ℝ))) := by
  have hvr : (0 : ℝ) < (var : ℝ) := by exact_mod_cast hvar
  have hs : (0 : ℝ) < Real.sqrt var := Real.sqrt_pos.mpr hvr
  have hz0 : (0 : ℝ) ≤ |(vq : ℝ) - (m : ℝ)| / Real.sqrt var :=
    div_nonneg (abs_nonneg _) hs.le
  have hzsq : (|(vq : ℝ) - (m : ℝ)| / Real.sqrt var) ^ 2 = ((vq : ℝ) - m) ^ 2 / var := by
    rw [div_pow, sq_abs, Real.sq_sqrt hvr.le]
  simp only [Bool.or_eq_true, decide_eq_true_eq]
  constructor
  · rintro (h | h)
    · exact lt_of_lt_of_le (by exact_mod_cast h) hz0
    · have h' : (thr : ℝ) ^ 2 * var < ((vq : ℝ) - m) ^ 2 := by exact_mod_cast h
      rcases lt_or_le thr 0 with hneg | hpos
      · exact lt_of_lt_of_le (by exact_mod_cast hneg) hz0
      · have hpos' : (0 : ℝ) ≤ (thr : ℝ) := by exact_mod_cast hpos
        by_contra hle
        push_neg at hle
        have hsq : (|(vq : ℝ) - (m : ℝ)| / Real.sqrt var) ^ 2 ≤ (thr : ℝ) ^ 2 := by
          nlinarith
        rw [hzsq] at hsq
        have := (div_le_iff₀ hvr).mp hsq
        nlinarith
  · intro hlt
    rcases lt_or_le thr 0 with hneg | hpos
    · exact Or.inl hneg
    · right
      have hpos' : (0 : ℝ) ≤ (thr : ℝ) := by exact_mod_cast hpos
      have h2 : (thr : ℝ) ^ 2 < (|(vq : ℝ) - (m : ℝ)| / Real.sqrt var) ^ 2 := by
        nlinarith
      rw [hzsq] at h2
      have h3 : (thr : ℝ) ^ 2 * var < ((vq : ℝ) - m) ^ 2 := (lt_div_iff₀ hvr).mp h2
      exact_mod_cast h3

theorem zsq_cast (m var vq : ℚ) (hvar : 0 < var) :
    (((vq - m) ^ 2 / var : ℚ) : ℝ) =
      (|(vq : ℝ) - (m : ℝ)| / Real.sqrt ((var : ℝ))) ^ 2 := by
  have hvr : (0 : ℝ) < (var : ℝ) := by exact_mod_cast hvar
  rw [div_pow, sq_abs, Real.sq_sqrt hvr.le]
  push_cast
  ring

theorem runDetect_early : ∀ (vs : List ℚ) (d : AnomalyDetector),
    d.window.length + vs.length ≤ 29 →
    ∀ r ∈ (runDetect d vs).2, r = (false, 0) := by
  intro vs
  induction vs with
  | nil =>
    intro d _ r hr
    simp [runDetect] at hr
  | cons v vs ih =>
    intro d h r hr
    simp only [runDetect] at hr
    rcases List.mem_cons.mp hr with h1 | h2
    · have hlen : (pushWindow d.window_size d.window v).length < 30 := by
        rw [pushWindow_length]
        simp only [List.length_cons] at h
        omega
      rw [h1, detect_snd_lt30 d v hlen]
    · apply ih (d.detect v).1 ?_ r h2
      rw [detect_window, pushWindow_length]
      simp only [List.length_cons] at h
      omega

theorem runDetect_const : ∀ (n : Nat) (d : AnomalyDetector) (v : ℚ),
    (∀ x ∈ d.window, x = v) →
    ∀ r ∈ (runDetect d (List.replicate n v)).2, r = (false, 0) := by
  intro n
  induction n with
  | zero =>
    intro d v _ r hr
    simp [runDetect] at hr
  | succ n ih =>
    intro d v h r hr
    rw [List.replicate_succ] at hr
    simp only [runDetect] at hr
    rcases List.mem_cons.mp hr with h1 | h2
    · have hall : ∀ x ∈ pushWindow d.window_size d.window v, x = v := by
        intro x hx
        rcases pushWindow_mem _ _ _ _ hx with hx' | hx'
        exacts [h x hx', hx']
      by_cases hlen : (pushWindow d.window_size d.window v).length < 30
      · rw [h1, detect_snd_lt30 d v hlen]
      · rw [h1, detect_snd_var0 d v hlen (listVar_const _ v hall)]
    · apply ih (d.detect v).1 v ?_ r h2
      intro x hx
      rw [detect_window] at hx
      rcases pushWindow_mem _ _ _ _ hx with hx' | hx'
      exacts [h x hx', hx']

/-- C1.  `AnomalyDetector.detect(value)` follows the specified algorithm:
the value is appended to the bounded window (kept as is while below
`window_size`, with the oldest value evicted when full); while the window
length (including the new value) is below 30 the result is `(false, 0.0)`;
when the population variance over the window is 0 the result is
`(false, 0.0)`; otherwise the boolean is `z > threshold` and the numeric
result represents `z = |value − μ| / σ` (the embedding returns `z²`, proved
here equal to the square of the real-valued z-score); consequently the
first 29 calls return `(false, 0.0)` for every input sequence, and a
constant input stream yields `(false, 0.0)` on every call. -/
theorem C1_detect_follows_spec (d : AnomalyDetector) (v : ℚ) :
    (d.detect v).1.window = pushWindow d.window_size d.window v ∧
    (d.window.length < d.window_size →
      pushWindow d.window_size d.window v = d.window ++ [v]) ∧
    (d.window.length = d.window_size → 0 < d.window_size →
      pushWindow d.window_size d.window v = d.window.tail ++ [v]) ∧
    ((pushWindow d.window_size d.window v).length < 30 →
      (d.detect v).2 = (false, 0)) ∧
    (¬ (pushWindow d.window_size d.window v).length < 30 →
      listVar (pushWindow d.window_size d.window v) = 0 →
      (d.detect v).2 = (false, 0)) ∧
    (¬ (pushWindow d.window_size d.window v).length < 30 →
      listVar (pushWindow d.window_size d.window v) ≠ 0 →
      (((d.detect v).2.1 = true ↔
        (d.threshold : ℝ) <
          |(v : ℝ) - (listMean (pushWindow d.window_size d.window v) : ℝ)| /
            Real.sqrt ((listVar (pushWindow d.window_size d.window v) : ℝ))) ∧
       ((d.detect v).2.2 : ℝ) =
        (|(v : ℝ) - (listMean (pushWindow d.window_size d.window v) : ℝ)| /
          Real.sqrt ((listVar (pushWindow d.window_size d.window v) : ℝ))) ^ 2)) ∧
    (∀ vs : List ℚ, vs.length ≤ 29 →
      ∀ r ∈ (runDetect ⟨d.window_size, d.threshold, []⟩ vs).2, r = (false, 0)) ∧
    (∀ n : Nat,
      ∀ r ∈ (runDetect ⟨d.window_size, d.threshold, []⟩ (List.replicate n v)).2,
        r = (false, 0)) := by
  refine ⟨detect_window d v, pushWindow_lt _ _ _, pushWindow_full _ _ _,
    detect_snd_lt30 d v, detect_snd_var0 d v, ?_, ?_, ?_⟩
  · intro h1 h2
    have hvar : 0 < listVar (pushWindow d.window_size d.window v) :=
      lt_of_le_of_ne (listVar_nonneg _) (Ne.symm h2)
    rw [detect_snd_main d v h1 h2]
    constructor
    · exact detect_bool_eq_real d.threshold
        (listMean (pushWindow d.window_size d.window v))
        (listVar (pushWindow d.window_size d.window v)) v hvar
    · exact zsq_cast (listMean (pushWindow d.window_size d.window v))
        (listVar (pushWindow d.window_size d.window v)) v hvar
  · intro vs hvs
    exact runDetect_early vs ⟨d.window_size, d.threshold, []⟩ (by simpa using hvs)
  · intro n
    exact runDetect_const n ⟨d.window_size, d.threshold, []⟩ v (by simp)

/-- Witness for C1: a first call on a fresh detector (window below 30) and
a call on a 30-sample constant window (σ = 0) both return `(false, 0)`. -/
theorem C1_detect_follows_spec_witness :
    ((⟨100, 3, []⟩ : AnomalyDetector).detect 5).2 = (false, 0) ∧
    ((⟨100, 3, List.replicate 30 (7 : ℚ)⟩ : AnomalyDetector).detect 7).2 = (false, 0) := by
  constructor
  · exact (C1_detect_follows_spec ⟨100, 3, []⟩ 5).2.2.2.1 (by decide)
  · exact (C1_detect_follows_spec ⟨100, 3, List.replicate 30 7⟩ 7).2.2.2.2.1
      (by decide) (listVar_const _ 7 (by
        intro x hx
        rcases pushWindow_mem _ _ _ _ hx with hx' | hx'
        · exact List.eq_of_mem_replicate hx'
        · exact hx'))

end StreamPulse
